import Mathlib

/-!
Shallow embedding of the tenzro-regional-node coordination engine.

The definitions below are translated from the TypeScript sources:
  - src/types.ts           (data model, TASK_TIER_REQUIREMENTS)
  - src/ValidatorSystem.ts (task lifecycle and reward settlement)
  - src/GlobalNodeCoordinator.ts (health / failover coordinator)
  - src/signalingServer.ts (join handling, peer/region registries)
  - network/DHTNetwork.ts  (store / findValue / replication)

Modelling conventions: JavaScript `Map`s become association lists with
insertion-order-preserving overwrite (`insertA`); numbers become `ℚ`
(real-valued semantics of JS arithmetic); timestamps are `ℚ` seconds;
WebSocket sends are recorded in an outbox list (the transport itself is
external); network round-trip outcomes (ping results, replica delivery,
peer query answers) are parameters of the functions that await them.
-/

namespace Tenzro

/-! ## Basic enumerations (src/types.ts) -/

inductive NodeType where
  | individual
  | regional_node
  | global_node
deriving DecidableEq

inductive NodeTier where
  | inference
  | aggregator
  | training
  | feedback
deriving DecidableEq

inductive TaskType where
  | compute
  | train
  | process
  | aggregate
  | store
  | validate
  | verify
  | dispute
  | report
  | update
deriving DecidableEq

inductive TaskState where
  | pending
  | assigned
  | accepted
  | processing
  | completed
  | failed
deriving DecidableEq

/-! ## Task data model (src/types.ts)

`data`, `expiry`, `priority`, `deadline` and the free-form `result` field
are carried opaquely by the source and never inspected by the embedded
operations, so they are omitted. -/

structure TaskRequirements where
  minTier : NodeTier
  minStorage : Option ℚ
  minMemory : Option ℚ
  gpuRequired : Bool
  estimatedDuration : ℚ
  maxNodes : ℕ
deriving DecidableEq

structure TaskReward where
  total : ℚ
  perNode : ℚ
  validatorShare : ℚ
  penaltyRate : ℚ
deriving DecidableEq

structure TaskStatus where
  state : TaskState
  assignedNodes : List String
  acceptedNodes : List String
  progress : ℚ
  startTime : Option ℚ
  completionTime : Option ℚ
  error : Option String
deriving DecidableEq

structure Task where
  taskId : String
  type : TaskType
  requirements : TaskRequirements
  reward : TaskReward
  status : TaskStatus
  timestamp : ℚ
  submitter : String
  globalValidator : Option String
  backupValidators : Option (List String)
deriving DecidableEq

structure TierReqs where
  tiers : List NodeTier
  minReward : ℚ
  validatorShare : ℚ
deriving DecidableEq

/-- src/types.ts `TASK_TIER_REQUIREMENTS`. -/
def TASK_TIER_REQUIREMENTS : TaskType → TierReqs
  | .compute => ⟨[.training, .feedback], 100, 10⟩
  | .train => ⟨[.training, .feedback], 100, 10⟩
  | .process => ⟨[.aggregator, .training, .feedback], 50, 10⟩
  | .aggregate => ⟨[.aggregator, .training, .feedback], 50, 10⟩
  | .store => ⟨[.inference, .aggregator, .training, .feedback], 20, 5⟩
  | .validate => ⟨[.aggregator, .training, .feedback], 50, 10⟩
  | .verify => ⟨[.training, .feedback], 75, 10⟩
  | .dispute => ⟨[.feedback], 100, 15⟩
  | .report => ⟨[.aggregator, .training, .feedback], 30, 5⟩
  | .update => ⟨[.training, .feedback], 50, 10⟩

/-! ## Association-list model of JavaScript `Map` -/

/-- `Map.get`. -/
def lookupA {α : Type} (l : List (String × α)) (k : String) : Option α :=
  match l with
  | [] => none
  | (k', v) :: t => if k' = k then some v else lookupA t k

/-- `Map.set`: overwrite in place, append if absent (JS insertion order). -/
def insertA {α : Type} (l : List (String × α)) (k : String) (v : α) : List (String × α) :=
  match l with
  | [] => [(k, v)]
  | (k', v') :: t => if k' = k then (k, v) :: t else (k', v') :: insertA t k v

/-- `Map.delete`. -/
def eraseA {α : Type} (l : List (String × α)) (k : String) : List (String × α) :=
  l.filter (fun pr => decide (pr.1 ≠ k))

theorem lookupA_insertA_self {α : Type} (l : List (String × α)) (k : String) (v : α) :
    lookupA (insertA l k v) k = some v := by
  induction l with
  | nil => simp [insertA, lookupA]
  | cons h t ih =>
    obtain ⟨k', v'⟩ := h
    by_cases hk : k' = k
    · simp [insertA, hk, lookupA]
    · simp [insertA, hk, lookupA, ih]

theorem lookupA_insertA_ne {α : Type} (l : List (String × α)) (k k2 : String) (v : α)
    (h : k ≠ k2) : lookupA (insertA l k v) k2 = lookupA l k2 := by
  induction l with
  | nil => simp [insertA, lookupA, h]
  | cons hd t ih =>
    obtain ⟨k', v'⟩ := hd
    by_cases hk : k' = k
    · subst hk
      simp [insertA, lookupA, h]
    · simp [insertA, hk, lookupA, ih]

theorem lookupA_mem {α : Type} (l : List (String × α)) (k : String) (v : α)
    (h : lookupA l k = some v) : (k, v) ∈ l := by
  induction l with
  | nil => simp [lookupA] at h
  | cons hd t ih =>
    obtain ⟨k', v'⟩ := hd
    by_cases hk : k' = k
    · subst hk
      simp [lookupA] at h
      simp [h]
    · simp [lookupA, hk] at h
      exact List.mem_cons_of_mem _ (ih h)

theorem lookupA_eraseA_self {α : Type} (l : List (String × α)) (k : String) :
    lookupA (eraseA l k) k = none := by
  induction l with
  | nil => simp [eraseA, lookupA]
  | cons hd t ih =>
    obtain ⟨k', v'⟩ := hd
    by_cases hk : k' = k
    · simpa [eraseA, hk] using ih
    · simpa [eraseA, hk, lookupA] using ih

theorem mem_insertA {α : Type} (l : List (String × α)) (k : String) (v : α) (pr : String × α)
    (h : pr ∈ insertA l k v) : pr = (k, v) ∨ pr ∈ l := by
  induction l with
  | nil => simpa [insertA] using h
  | cons hd t ih =>
    obtain ⟨k', v'⟩ := hd
    by_cases hk : k' = k
    · simp [insertA, hk] at h
      rcases h with h | h
      · exact Or.inl (by simp [h])
      · exact Or.inr (List.mem_cons_of_mem _ h)
    · simp [insertA, hk] at h
      rcases h with h | h
      · exact Or.inr (by simp [h])
      · rcases ih h with h2 | h2
        · exact Or.inl h2
        · exact Or.inr (List.mem_cons_of_mem _ h2)

/-! ## Reward arithmetic (src/ValidatorSystem.ts) -/

/-- `calculateNodeReward` (ValidatorSystem.ts lines 305-308). -/
def calculateNodeReward (task : Task) (nodeCount : ℕ) : ℚ :=
  task.reward.total * (1 - task.reward.validatorShare / 100) / nodeCount

/-- The validator reward pool computed in `finalizeTask` (line 222):
`task.reward.total * (task.reward.validatorShare / 100)`. -/
def validatorRewardOf (task : Task) : ℚ :=
  task.reward.total * (task.reward.validatorShare / 100)

/-- The reward recorded by `handleTaskCompletion` (lines 197-203) for a node
whose completion report arrives `duration` seconds after the task started. -/
def completionReward (perNode estimatedDuration penaltyRate duration : ℚ) : ℚ :=
  if estimatedDuration < duration then
    perNode * (1 - min ((duration - estimatedDuration) / estimatedDuration * penaltyRate) 1)
  else
    perNode

theorem completionReward_le (p e rate d : ℚ) (hp : 0 ≤ p) (he : 0 < e) (hr : 0 ≤ rate) :
    completionReward p e rate d ≤ p := by
  unfold completionReward
  split
  · rename_i hlt
    have hm : 0 ≤ min ((d - e) / e * rate) 1 := by
      have h1 : 0 ≤ (d - e) / e * rate :=
        mul_nonneg (div_nonneg (by linarith) he.le) hr
      exact le_min h1 (by norm_num)
    nlinarith
  · exact le_refl p

theorem completionReward_sum_le (p e rate : ℚ) (hp : 0 ≤ p) (he : 0 < e) (hr : 0 ≤ rate)
    (l : List ℚ) :
    (l.map (fun d => completionReward p e rate d)).sum ≤ (l.length : ℚ) * p := by
  induction l with
  | nil => simp
  | cons a t ih =>
    have ha := completionReward_le p e rate a hp he hr
    simp only [List.map_cons, List.sum_cons, List.length_cons]
    push_cast
    linarith

theorem completionReward_sum_onTime (p e rate : ℚ) (l : List ℚ)
    (h : ∀ d ∈ l, d ≤ e) :
    (l.map (fun d => completionReward p e rate d)).sum = (l.length : ℚ) * p := by
  induction l with
  | nil => simp
  | cons a t ih =>
    have ha : a ≤ e := h a (List.mem_cons_self a t)
    have ht : ∀ d ∈ t, d ≤ e := fun d hd => h d (List.mem_cons_of_mem _ hd)
    have hA : completionReward p e rate a = p := by
      simp [completionReward, not_lt.mpr ha]
    simp only [List.map_cons, List.sum_cons, List.length_cons, ih ht, hA]
    push_cast
    ring

/-- C7: For every completion report on a task with per-node reward `p`,
estimated duration `e > 0`, and elapsed duration `d` since `startTime`:
the recorded reward equals `p` when `d ≤ e`, and equals
`p * (1 - min 1 (((d - e)/e) * penaltyRate))` when `d > e`; the penalty is
capped at 100% so the recorded reward is never negative. -/
theorem completion_penalty_spec (p e rate d : ℚ) (he : 0 < e) (hp : 0 ≤ p) :
    (d ≤ e → completionReward p e rate d = p) ∧
    (e < d → completionReward p e rate d = p * (1 - min ((d - e) / e * rate) 1)) ∧
    0 ≤ completionReward p e rate d := by
  refine ⟨?_, ?_, ?_⟩
  · intro h
    simp [completionReward, not_lt.mpr h]
  · intro h
    simp [completionReward, h]
  · unfold completionReward
    split
    · have hm : min ((d - e) / e * rate) 1 ≤ 1 := min_le_right _ _
      have : (0:ℚ) ≤ 1 - min ((d - e) / e * rate) 1 := by linarith
      exact mul_nonneg hp this
    · exact hp

theorem completion_penalty_spec_witness :
    (0:ℚ) < 100 ∧ (0:ℚ) ≤ 90 ∧
    (((150:ℚ) ≤ 100 → completionReward 90 100 (1/2) 150 = 90) ∧
     ((100:ℚ) < 150 → completionReward 90 100 (1/2) 150 =
        90 * (1 - min ((150 - 100) / 100 * (1/2)) 1)) ∧
     0 ≤ completionReward 90 100 (1/2) 150) :=
  ⟨by norm_num, by norm_num,
    completion_penalty_spec 90 100 (1/2) 150 (by norm_num) (by norm_num)⟩

/-! ## C1: reward conservation at finalization -/

/-- A task used to instantiate witnesses: a validated `train` task with
`total = 200`, `validatorShare = 10`, estimated duration 100 s. -/
def demoTask : Task where
  taskId := "t1"
  type := .train
  requirements := { minTier := .training, minStorage := none, minMemory := none,
                    gpuRequired := false, estimatedDuration := 100, maxNodes := 10 }
  reward := { total := 200, perNode := 90, validatorShare := 10, penaltyRate := 1 }
  status := { state := .processing, assignedNodes := ["n1", "n2"],
              acceptedNodes := ["n1", "n2"], progress := 0, startTime := some 0,
              completionTime := none, error := none }
  timestamp := 0
  submitter := "g1"
  globalValidator := none
  backupValidators := none

/-- Conservation property for a task distributed to `ds.length` nodes (one
elapsed duration per accepted node's completion report) and settled with `k`
task validators: recorded node rewards plus the evenly-split validator pool
account for `reward.total` exactly, up to the nonnegative loss introduced by
late-completion penalties (zero when every report is on time). -/
def rewardConservation (task : Task) (ds : List ℚ) (k : ℕ) : Prop :=
  let p := calculateNodeReward task ds.length
  let recorded := ds.map (fun d =>
    completionReward p task.requirements.estimatedDuration task.reward.penaltyRate d)
  let pool := validatorRewardOf task
  let loss := (ds.length : ℚ) * p - recorded.sum
  (recorded.sum + (k : ℚ) * (pool / k) + loss = task.reward.total)
  ∧ 0 ≤ loss
  ∧ ((∀ d ∈ ds, d ≤ task.requirements.estimatedDuration) →
      recorded.sum + (k : ℚ) * (pool / k) = task.reward.total)

/-- C1: for every finalized task the sum of the per-node rewards recorded for
its accepted nodes plus the validator reward pool
(`reward.total * validatorShare / 100`, split evenly across the `k` validators
that touched the task) equals `reward.total`, up to the reduction introduced
by late-completion penalty adjustments. -/
theorem finalize_reward_conservation (task : Task) (ds : List ℚ) (k : ℕ)
    (hn : ds ≠ []) (hk : 0 < k)
    (he : 0 < task.requirements.estimatedDuration)
    (hrate : 0 ≤ task.reward.penaltyRate)
    (htot : 0 ≤ task.reward.total)
    (hvs0 : 0 ≤ task.reward.validatorShare)
    (hvs1 : task.reward.validatorShare ≤ 100) :
    rewardConservation task ds k := by
  have hlen : (ds.length : ℚ) ≠ 0 := by
    have h0 : ds.length ≠ 0 := fun h => hn (List.length_eq_zero.mp h)
    exact_mod_cast h0
  have hkq : (k : ℚ) ≠ 0 := by exact_mod_cast hk.ne'
  have hp : 0 ≤ calculateNodeReward task ds.length := by
    unfold calculateNodeReward
    have h1 : task.reward.validatorShare / 100 ≤ 1 :=
      (div_le_one (by norm_num)).mpr hvs1
    exact div_nonneg (mul_nonneg htot (by linarith)) (by positivity)
  have key : (ds.length : ℚ) * calculateNodeReward task ds.length + validatorRewardOf task
      = task.reward.total := by
    unfold calculateNodeReward validatorRewardOf
    field_simp
    ring
  have keyk : (k : ℚ) * (validatorRewardOf task / k) = validatorRewardOf task := by
    field_simp
  have hle := completionReward_sum_le (calculateNodeReward task ds.length)
      task.requirements.estimatedDuration task.reward.penaltyRate hp he hrate ds
  unfold rewardConservation
  refine ⟨by linarith, by linarith, ?_⟩
  intro h
  have heq := completionReward_sum_onTime (calculateNodeReward task ds.length)
      task.requirements.estimatedDuration task.reward.penaltyRate ds h
  rw [heq, keyk]
  linarith

theorem finalize_reward_conservation_witness :
    ([(50:ℚ), 80] ≠ ([] : List ℚ)) ∧ 0 < 2 ∧
    (0 < demoTask.requirements.estimatedDuration) ∧
    (0 ≤ demoTask.reward.penaltyRate) ∧
    (0 ≤ demoTask.reward.total) ∧
    (0 ≤ demoTask.reward.validatorShare) ∧
    (demoTask.reward.validatorShare ≤ 100) ∧
    rewardConservation demoTask [(50:ℚ), 80] 2 :=
  ⟨by decide, by norm_num, by norm_num [demoTask], by norm_num [demoTask],
   by norm_num [demoTask], by norm_num [demoTask], by norm_num [demoTask],
   finalize_reward_conservation demoTask [(50:ℚ), 80] 2 (by decide) (by norm_num)
     (by norm_num [demoTask]) (by norm_num [demoTask]) (by norm_num [demoTask])
     (by norm_num [demoTask]) (by norm_num [demoTask])⟩

/-! ## ValidatorSystem state machine (src/ValidatorSystem.ts) -/

structure TasksConfig where
  minTaskDuration : ℚ
  maxTaskDuration : ℚ
  maxNodesPerTask : ℕ
deriving DecidableEq

/-- Defaults from src/config.ts (`tasks` section). -/
def defaultTasksConfig : TasksConfig := ⟨60, 86400, 100⟩

/-- The slice of `ConnectedPeer` (info + live status) read by the embedded
operations: identity, tier, region, balance, online flag, resource gauges and
task counters. Peer identity is modelled by `peerId`. -/
structure PeerRec where
  peerId : String
  nodeType : NodeType
  nodeTier : NodeTier
  region : String
  tokenBalance : ℚ
  online : Bool
  storage : ℚ
  memory : ℚ
  activeTasks : ℕ
  completedTasks : ℕ
deriving DecidableEq

/-- Outbound messages whose content the claims observe; other forwards are
pure transport and are not recorded. -/
inductive VSMsg where
  | taskAssignment (peerId : String) (taskId : String) (rewardPerNode : ℚ)
  | rewardDistribution (taskId : String) (peerId : String) (amount : ℚ)
deriving DecidableEq

structure VSState where
  globalValidators : List (String × PeerRec)
  regionalValidators : List (String × List PeerRec)
  individualNodes : List (String × List PeerRec)
  activeTasks : List (String × Task)
  taskTimeouts : List String
  rewardDistributions : List (String × List (String × ℚ))
  sent : List VSMsg
deriving DecidableEq

/-- Inner-pool `Map.set` keyed by `peerId`. -/
def poolSet (l : List PeerRec) (peer : PeerRec) : List PeerRec :=
  match l with
  | [] => [peer]
  | n :: t => if n.peerId = peer.peerId then peer :: t else n :: poolSet t peer

/-- Inner-pool `Map.delete` keyed by `peerId`. -/
def poolDelete (l : List PeerRec) (peerId : String) : List PeerRec :=
  l.filter (fun n => decide (n.peerId ≠ peerId))

/-- `addNode` (ValidatorSystem.ts lines 35-60). -/
def addNode (st : VSState) (peer : PeerRec) : VSState :=
  let rv := if lookupA st.regionalValidators peer.region = none
            then insertA st.regionalValidators peer.region [] else st.regionalValidators
  let ind := if lookupA st.individualNodes peer.region = none
             then insertA st.individualNodes peer.region [] else st.individualNodes
  let st1 := { st with regionalValidators := rv, individualNodes := ind }
  match peer.nodeType with
  | .global_node =>
    { st1 with globalValidators := insertA st1.globalValidators peer.peerId peer }
  | .regional_node =>
    let pool := poolSet ((lookupA st1.regionalValidators peer.region).getD []) peer
    { st1 with regionalValidators := insertA st1.regionalValidators peer.region pool }
  | .individual =>
    let pool := poolSet ((lookupA st1.individualNodes peer.region).getD []) peer
    { st1 with individualNodes := insertA st1.individualNodes peer.region pool }

/-- `findPeer` (lines 346-356). -/
def findPeer (st : VSState) (peerId : String) : Option PeerRec :=
  match lookupA st.globalValidators peerId with
  | some p => some p
  | none =>
    match ((st.regionalValidators.map Prod.snd).flatten).find?
        (fun n => decide (n.peerId = peerId)) with
    | some p => some p
    | none =>
      ((st.individualNodes.map Prod.snd).flatten).find?
        (fun n => decide (n.peerId = peerId))

/-- `getRegionalValidatorForNode` (lines 340-344): first regional validator of
the region, if any. -/
def getRegionalValidatorForNode (st : VSState) (region : String) : Option PeerRec :=
  (lookupA st.regionalValidators region).bind List.head?

/-- `getTaskValidators` (lines 317-338): the submitting global validator (if
registered) plus the distinct regional validators of the regions of the
task's assigned nodes. -/
def getTaskValidators (st : VSState) (task : Task) : List String :=
  let init : List String :=
    match lookupA st.globalValidators task.submitter with
    | some _ => [task.submitter]
    | none => []
  task.status.assignedNodes.foldl (fun vals nodeId =>
    match findPeer st nodeId with
    | none => vals
    | some pr =>
      match getRegionalValidatorForNode st pr.region with
      | none => vals
      | some rv => if rv.peerId ∈ vals then vals else vals ++ [rv.peerId]) init

/-- `validateTaskRequirements` (lines 250-261). -/
def validateTaskRequirements (cfg : TasksConfig) (task : Task) : Bool :=
  let tierReqs := TASK_TIER_REQUIREMENTS task.type
  decide (task.requirements.minTier ∈ tierReqs.tiers) &&
  decide (tierReqs.minReward ≤ task.reward.total) &&
  decide (task.reward.validatorShare = tierReqs.validatorShare) &&
  decide (cfg.minTaskDuration ≤ task.requirements.estimatedDuration) &&
  decide (task.requirements.estimatedDuration ≤ cfg.maxTaskDuration) &&
  decide (task.requirements.maxNodes ≤ cfg.maxNodesPerTask)

/-- `setupTaskTimeout` (lines 369-375): arms the acceptance timer. -/
def armTimeout (timeouts : List String) (taskId : String) : List String :=
  taskId :: timeouts.filter (fun t => decide (t ≠ taskId))

/-- `broadcastTask` (lines 84-117). The forwarding loop to regional
validators only sends messages; the validation throw happens before any state
mutation and is returned as `some errorMessage` with the state untouched. -/
def broadcastTask (cfg : TasksConfig) (st : VSState) (task : Task) :
    VSState × Option String :=
  if validateTaskRequirements cfg task then
    ({ st with activeTasks := insertA st.activeTasks task.taskId task,
               taskTimeouts := armTimeout st.taskTimeouts task.taskId }, none)
  else
    (st, some "Invalid task requirements")

/-- `getMaxTasksForTier` (lines 295-303). -/
def getMaxTasksForTier : NodeTier → ℕ
  | .inference => 5
  | .aggregator => 10
  | .training => 15
  | .feedback => 20

/-- `isNodeEligibleForTask` (lines 263-293). The JS falsy guard
`requirements.minX && resources.x < minX` skips the floor check when the
floor is absent or zero. -/
def isNodeEligibleForTask (node : PeerRec) (task : Task) : Bool :=
  decide (node.nodeTier ∈ (TASK_TIER_REQUIREMENTS task.type).tiers) &&
  (match task.requirements.minStorage with
   | none => true
   | some m => !(decide (m ≠ 0) && decide (node.storage < m))) &&
  (match task.requirements.minMemory with
   | none => true
   | some m => !(decide (m ≠ 0) && decide (node.memory < m))) &&
  !(task.requirements.gpuRequired &&
    !decide (node.nodeTier = .training ∨ node.nodeTier = .feedback)) &&
  decide (node.activeTasks < getMaxTasksForTier node.nodeTier)

/-- `handleRegionalTaskDistribution` (lines 119-163). The per-node
assignment messages carry `reward.perNode` updated to the computed split; the
entry stored in `activeTasks` is the incoming task with the eligible node ids
appended to `assignedNodes` (its own `perNode` field is not updated, as in
the source). -/
def handleRegionalTaskDistribution (st : VSState) (task : Task) (region : String) :
    VSState :=
  match lookupA st.individualNodes region with
  | none => st
  | some nodes =>
    let eligible := (nodes.filter (fun n => isNodeEligibleForTask n task)).take
      task.requirements.maxNodes
    if eligible.isEmpty then st
    else
      let rewardPerNode := calculateNodeReward task eligible.length
      let task' := { task with status :=
        { task.status with assignedNodes :=
            task.status.assignedNodes ++ eligible.map (fun n => n.peerId) } }
      { st with
        activeTasks := insertA st.activeTasks task.taskId task',
        sent := st.sent ++ eligible.map (fun n =>
          VSMsg.taskAssignment n.peerId task.taskId rewardPerNode) }

/-- The task update performed by `handleTaskAcceptance` (lines 170-174):
the accepting peer is appended to `acceptedNodes`, and the first acceptance
stamps `startTime` and moves the state to `processing`. -/
def acceptTask (now : ℚ) (task : Task) (peerId : String) : Task :=
  let status1 := { task.status with acceptedNodes := task.status.acceptedNodes ++ [peerId] }
  let status2 :=
    if task.status.startTime = none then
      { status1 with startTime := some now, state := TaskState.processing }
    else status1
  { task with status := status2 }

/-- `handleTaskAcceptance` (lines 165-182). -/
def handleTaskAcceptance (now : ℚ) (st : VSState) (taskId peerId : String) : VSState :=
  match lookupA st.activeTasks taskId with
  | none => st
  | some task =>
    let st1 := { st with activeTasks := insertA st.activeTasks taskId (acceptTask now task peerId) }
    if lookupA st1.rewardDistributions taskId = none then
      { st1 with rewardDistributions := insertA st1.rewardDistributions taskId [] }
    else st1

/-- `cleanupTask` (lines 403-415): clears the timer and deletes the task's
reward ledger; the task itself stays in `activeTasks`. -/
def cleanupTask (st : VSState) (taskId : String) : VSState :=
  { st with taskTimeouts := st.taskTimeouts.filter (fun t => decide (t ≠ taskId)),
            rewardDistributions := eraseA st.rewardDistributions taskId }

/-- The task record written by `finalizeTask` (lines 217-218). -/
def completedTask (now : ℚ) (task : Task) : Task :=
  { task with status := { task.status with
      state := TaskState.completed, completionTime := some now } }

/-- The task's reward map after `finalizeTask` overwrote each task
validator's entry with the evenly-split validator share (lines 221-229). -/
def finalizeRewardMap (st : VSState) (task : Task) : List (String × ℚ) :=
  let taskRewards := (lookupA st.rewardDistributions task.taskId).getD []
  let validators := getTaskValidators st task
  let validatorShare := validatorRewardOf task / validators.length
  validators.foldl (fun m v => insertA m v validatorShare) taskRewards

/-- `finalizeTask` (lines 216-248): marks the task completed, overwrites each
task validator's ledger entry with the evenly-split validator share, sends a
reward-distribution message for each ledger entry whose peer is currently
connected, then runs `cleanupTask` (which deletes the task's reward ledger). -/
def finalizeTask (now : ℚ) (st : VSState) (task : Task) : VSState :=
  let rewards' := finalizeRewardMap st task
  let msgs := rewards'.filterMap (fun pr =>
    if (findPeer st pr.1).isSome then
      some (VSMsg.rewardDistribution task.taskId pr.1 pr.2)
    else none)
  cleanupTask
    { st with activeTasks := insertA st.activeTasks task.taskId (completedTask now task),
              rewardDistributions := insertA st.rewardDistributions task.taskId rewards',
              sent := st.sent ++ msgs }
    task.taskId

/-- `handleTaskCompletion` (lines 184-214). The source non-null-asserts
`startTime` and the reward ledger (both set at first acceptance); here a
missing ledger or task leaves the state unchanged. -/
def handleTaskCompletion (now : ℚ) (st : VSState) (taskId peerId : String) : VSState :=
  match lookupA st.activeTasks taskId with
  | none => st
  | some task =>
    match lookupA st.rewardDistributions taskId with
    | none => st
    | some rws =>
      let startTime := task.status.startTime.getD 0
      let duration := now - startTime
      let reward := completionReward task.reward.perNode
        task.requirements.estimatedDuration task.reward.penaltyRate duration
      let rws' := insertA rws peerId reward
      let st1 := { st with rewardDistributions := insertA st.rewardDistributions taskId rws' }
      if rws'.length = task.status.acceptedNodes.length then
        finalizeTask now st1 task
      else st1

/-- `handleTaskTimeout` (lines 377-385): the acceptance-timeout callback. -/
def handleTaskTimeout (st : VSState) (taskId : String) : VSState :=
  match lookupA st.activeTasks taskId with
  | none => st
  | some task =>
    if task.status.state ≠ .pending then st
    else
      let status' := { task.status with
        state := TaskState.failed,
        error := some "Task timed out waiting for acceptance" }
      let task' := { task with status := status' }
      cleanupTask { st with activeTasks := insertA st.activeTasks taskId task' } taskId

/-- The task after `handleNodeFailure` filters the departing node out of
`assignedNodes` and `acceptedNodes` (lines 391-393). -/
def dropNodeTask (task : Task) (nodeId : String) : Task :=
  { task with status := { task.status with
      assignedNodes := task.status.assignedNodes.filter (fun i => decide (i ≠ nodeId)),
      acceptedNodes := task.status.acceptedNodes.filter (fun i => decide (i ≠ nodeId)) } }

/-- The task after `handleNodeFailure` additionally marks it failed because
no assigned nodes remain (lines 396-399). -/
def failTask (task : Task) (nodeId : String) : Task :=
  { dropNodeTask task nodeId with status := { (dropNodeTask task nodeId).status with
      state := TaskState.failed,
      error := some "All assigned nodes failed" } }

/-- `handleNodeFailure` (lines 387-401). -/
def handleNodeFailure (st : VSState) (taskId nodeId : String) : VSState :=
  match lookupA st.activeTasks taskId with
  | none => st
  | some task =>
    if (task.status.assignedNodes.filter (fun i => decide (i ≠ nodeId))).isEmpty then
      cleanupTask
        { st with activeTasks := insertA st.activeTasks taskId (failTask task nodeId) }
        taskId
    else
      { st with activeTasks := insertA st.activeTasks taskId (dropNodeTask task nodeId) }

/-- One iteration of `removeNode`'s task sweep (lines 64-68): a task that
currently lists the departing node among its `assignedNodes` goes through
`handleNodeFailure`. -/
def removeNodeStep (peerId : String) (s : VSState) (tid : String) : VSState :=
  match lookupA s.activeTasks tid with
  | some t => if peerId ∈ t.status.assignedNodes then handleNodeFailure s tid peerId else s
  | none => s

/-- The pool deletion of `removeNode` (lines 70-81). -/
def removePeerPools (st : VSState) (peerId : String) (nodeType : NodeType)
    (region : String) : VSState :=
  match nodeType with
  | .global_node => { st with globalValidators := eraseA st.globalValidators peerId }
  | .regional_node =>
    match lookupA st.regionalValidators region with
    | none => st
    | some l =>
      { st with regionalValidators := insertA st.regionalValidators region (poolDelete l peerId) }
  | .individual =>
    match lookupA st.individualNodes region with
    | none => st
    | some l =>
      { st with individualNodes := insertA st.individualNodes region (poolDelete l peerId) }

/-- `removeNode` (lines 62-82): sweeps every active task the departing node
is assigned to through `handleNodeFailure`, then deletes the peer from its
pool. -/
def removeNode (st : VSState) (peerId : String) (nodeType : NodeType) (region : String) :
    VSState :=
  removePeerPools ((st.activeTasks.map Prod.fst).foldl (removeNodeStep peerId) st)
    peerId nodeType region

/-- The status reset performed by `retryTask` (lines 552-559). -/
def resetTask (now : ℚ) (task : Task) : Task :=
  { task with
    status := { state := TaskState.pending, assignedNodes := [], acceptedNodes := [],
                progress := 0, startTime := none, completionTime := none, error := none },
    timestamp := now }

/-- `retryTask` (lines 547-564): resets a failed task's status fields and
resubmits it through `broadcastTask` (whose validation may still reject). -/
def retryTask (cfg : TasksConfig) (now : ℚ) (st : VSState) (taskId : String) :
    VSState × Bool :=
  match lookupA st.activeTasks taskId with
  | none => (st, false)
  | some task =>
    if task.status.state ≠ .failed then (st, false)
    else
      let task' := resetTask now task
      let st1 := { st with activeTasks := insertA st.activeTasks taskId task' }
      ((broadcastTask cfg st1 task').1, true)

/-- `getPendingRewards` (lines 599-610). -/
def getPendingRewards (st : VSState) : List (String × ℚ) :=
  st.rewardDistributions.foldl (fun acc pr =>
    pr.2.foldl (fun acc2 r =>
      insertA acc2 r.1 ((lookupA acc2 r.1).getD 0 + r.2)) acc) []

/-! ## C2: submission-time policy validation -/

/-- C2: a task whose declared `reward.validatorShare` does not exactly equal
the policy share fixed for its task type — or whose `minTier`, total reward,
estimated duration, or `maxNodes` violate the policy/config bounds — is
rejected by `broadcastTask` with a validation error, and the task never
enters the active task table: no entry is stored and no timeout timer is
armed (the state is returned untouched). -/
theorem broadcastTask_rejects_policy_violation (cfg : TasksConfig) (st : VSState)
    (task : Task)
    (h : task.reward.validatorShare ≠ (TASK_TIER_REQUIREMENTS task.type).validatorShare ∨
         task.requirements.minTier ∉ (TASK_TIER_REQUIREMENTS task.type).tiers ∨
         task.reward.total < (TASK_TIER_REQUIREMENTS task.type).minReward ∨
         task.requirements.estimatedDuration < cfg.minTaskDuration ∨
         cfg.maxTaskDuration < task.requirements.estimatedDuration ∨
         cfg.maxNodesPerTask < task.requirements.maxNodes) :
    broadcastTask cfg st task = (st, some "Invalid task requirements") := by
  have hv : validateTaskRequirements cfg task = false := by
    unfold validateTaskRequirements
    rcases h with h | h | h | h | h | h
    · simp [h]
    · simp [h]
    · simp [not_le.mpr h]
    · simp [not_le.mpr h]
    · simp [not_le.mpr h]
    · simp [not_le.mpr h]
  simp [broadcastTask, hv]

/-- The empty `ValidatorSystem` state, as built by the constructor. -/
def vs0 : VSState := ⟨[], [], [], [], [], [], []⟩

/-- `demoTask` with a validator share of 7%, which differs from the 10%
policy share of `train` tasks. -/
def demoBadShareTask : Task :=
  { demoTask with reward := { demoTask.reward with validatorShare := 7 } }

theorem broadcastTask_rejects_policy_violation_witness :
    (demoBadShareTask.reward.validatorShare ≠
       (TASK_TIER_REQUIREMENTS demoBadShareTask.type).validatorShare ∨
     demoBadShareTask.requirements.minTier ∉
       (TASK_TIER_REQUIREMENTS demoBadShareTask.type).tiers ∨
     demoBadShareTask.reward.total < (TASK_TIER_REQUIREMENTS demoBadShareTask.type).minReward ∨
     demoBadShareTask.requirements.estimatedDuration < defaultTasksConfig.minTaskDuration ∨
     defaultTasksConfig.maxTaskDuration < demoBadShareTask.requirements.estimatedDuration ∨
     defaultTasksConfig.maxNodesPerTask < demoBadShareTask.requirements.maxNodes) ∧
    broadcastTask defaultTasksConfig vs0 demoBadShareTask =
      (vs0, some "Invalid task requirements") :=
  ⟨Or.inl (by decide),
   broadcastTask_rejects_policy_violation defaultTasksConfig vs0 demoBadShareTask
     (Or.inl (by decide))⟩

/-! ## C5: acceptance-timeout firing -/

/-- The task record written by `handleTaskTimeout` when the timer finds the
task still pending. -/
def timedOutTask (task : Task) : Task :=
  { task with status := { task.status with
      state := TaskState.failed,
      error := some "Task timed out waiting for acceptance" } }

/-- C5: when a task's acceptance-timeout timer fires, the task transitions to
`failed` with reason "Task timed out waiting for acceptance" (and its timer
and reward ledger are cleaned up) if and only if its state is still
`pending` at that moment; in any other state the firing leaves the whole
engine state unchanged. -/
theorem handleTaskTimeout_pending_only (st : VSState) (taskId : String) (task : Task)
    (h : lookupA st.activeTasks taskId = some task) :
    (task.status.state = TaskState.pending →
      handleTaskTimeout st taskId =
        cleanupTask
          { st with activeTasks := insertA st.activeTasks taskId (timedOutTask task) }
          taskId ∧
      lookupA (handleTaskTimeout st taskId).activeTasks taskId = some (timedOutTask task)) ∧
    (task.status.state ≠ TaskState.pending → handleTaskTimeout st taskId = st) := by
  constructor
  · intro hp
    constructor
    · simp [handleTaskTimeout, h, hp, timedOutTask]
    · simp only [handleTaskTimeout, h, hp]
      simp [cleanupTask, timedOutTask, lookupA_insertA_self]
  · intro hp
    simp [handleTaskTimeout, h, hp]

/-- A pending task waiting for acceptance, and the engine state holding it
with its timer armed. -/
def demoPendingTask : Task :=
  { demoTask with status := { demoTask.status with
      state := TaskState.pending, assignedNodes := [], acceptedNodes := [],
      startTime := none } }

def demoPendingVS : VSState :=
  { vs0 with activeTasks := [("t1", demoPendingTask)], taskTimeouts := ["t1"] }

theorem handleTaskTimeout_pending_only_witness :
    lookupA demoPendingVS.activeTasks "t1" = some demoPendingTask ∧
    ((demoPendingTask.status.state = TaskState.pending →
      handleTaskTimeout demoPendingVS "t1" =
        cleanupTask
          { demoPendingVS with activeTasks := insertA demoPendingVS.activeTasks "t1" (timedOutTask demoPendingTask) }
          "t1" ∧
      lookupA (handleTaskTimeout demoPendingVS "t1").activeTasks "t1" =
        some (timedOutTask demoPendingTask)) ∧
    (demoPendingTask.status.state ≠ TaskState.pending →
      handleTaskTimeout demoPendingVS "t1" = demoPendingVS)) :=
  ⟨by decide,
   handleTaskTimeout_pending_only demoPendingVS "t1" demoPendingTask (by decide)⟩

/-! ## C4: node removal mid-task -/

theorem handleNodeFailure_lookup_ne (s : VSState) (tid' p tid : String) (h : tid' ≠ tid) :
    lookupA (handleNodeFailure s tid' p).activeTasks tid = lookupA s.activeTasks tid := by
  unfold handleNodeFailure
  cases hl : lookupA s.activeTasks tid' with
  | none => rfl
  | some t =>
    dsimp only
    split
    · simp [cleanupTask, lookupA_insertA_ne _ _ _ _ h]
    · simp [lookupA_insertA_ne _ _ _ _ h]

theorem removeNodeStep_lookup_ne (p : String) (s : VSState) (tid' tid : String)
    (h : tid' ≠ tid) :
    lookupA (removeNodeStep p s tid').activeTasks tid = lookupA s.activeTasks tid := by
  unfold removeNodeStep
  cases hl : lookupA s.activeTasks tid' with
  | none => rfl
  | some t =>
    dsimp only
    split
    · exact handleNodeFailure_lookup_ne s tid' p tid h
    · rfl

theorem foldl_removeNodeStep_lookup (p : String) (L : List String) (s : VSState)
    (tid : String) (h : ∀ x ∈ L, x ≠ tid) :
    lookupA ((L.foldl (removeNodeStep p) s).activeTasks) tid = lookupA s.activeTasks tid := by
  induction L generalizing s with
  | nil => rfl
  | cons a t ih =>
    simp only [List.foldl_cons]
    rw [ih _ (fun x hx => h x (List.mem_cons_of_mem a hx))]
    exact removeNodeStep_lookup_ne p s a tid (h a (List.mem_cons_self a t))

theorem removePeerPools_activeTasks (st : VSState) (p : String) (ty : NodeType)
    (r : String) :
    (removePeerPools st p ty r).activeTasks = st.activeTasks := by
  cases ty with
  | individual =>
    unfold removePeerPools
    cases lookupA st.individualNodes r <;> rfl
  | regional_node =>
    unfold removePeerPools
    cases lookupA st.regionalValidators r <;> rfl
  | global_node => rfl

theorem handleNodeFailure_spec (s : VSState) (tid p : String) (task : Task)
    (h : lookupA s.activeTasks tid = some task) :
    ∃ t', lookupA (handleNodeFailure s tid p).activeTasks tid = some t' ∧
      t'.status.assignedNodes = task.status.assignedNodes.filter (fun i => decide (i ≠ p)) ∧
      t'.status.acceptedNodes = task.status.acceptedNodes.filter (fun i => decide (i ≠ p)) ∧
      (t'.status.assignedNodes = [] →
        t'.status.state = TaskState.failed ∧
        t'.status.error = some "All assigned nodes failed") ∧
      (t'.status.assignedNodes ≠ [] →
        t'.status.state = task.status.state ∧ t'.status.error = task.status.error) := by
  by_cases he : (task.status.assignedNodes.filter (fun i => decide (i ≠ p))).isEmpty = true
  · have hnil : task.status.assignedNodes.filter (fun i => decide (i ≠ p)) = [] := by
      simpa using he
    refine ⟨failTask task p, ?_, rfl, rfl, fun _ => ⟨rfl, rfl⟩, fun hne => absurd hnil hne⟩
    unfold handleNodeFailure
    rw [h]
    dsimp only
    rw [if_pos he]
    simp [cleanupTask, lookupA_insertA_self]
  · refine ⟨dropNodeTask task p, ?_, rfl, rfl, fun h0 => ?_, fun _ => ⟨rfl, rfl⟩⟩
    · unfold handleNodeFailure
      rw [h]
      dsimp only
      rw [if_neg he]
      simp [lookupA_insertA_self]
    · exfalso
      apply he
      have h1 : task.status.assignedNodes.filter (fun i => decide (i ≠ p)) = [] := h0
      rw [h1]
      rfl

/-- C4: for every task and every node removed from the network while listed
in that task's `assignedNodes`: the node is removed from both
`assignedNodes` and `acceptedNodes`; the task transitions to `failed` with
error "All assigned nodes failed" exactly when no assigned nodes remain
afterwards, and otherwise the task's state and error are left unchanged (a
processing task stays processing). -/
theorem removeNode_task_effect (st : VSState) (nodeType : NodeType) (region p tid : String)
    (task : Task)
    (hnd : (st.activeTasks.map Prod.fst).Nodup)
    (h : lookupA st.activeTasks tid = some task)
    (hp : p ∈ task.status.assignedNodes) :
    ∃ t', lookupA (removeNode st p nodeType region).activeTasks tid = some t' ∧
      t'.status.assignedNodes = task.status.assignedNodes.filter (fun i => decide (i ≠ p)) ∧
      t'.status.acceptedNodes = task.status.acceptedNodes.filter (fun i => decide (i ≠ p)) ∧
      (t'.status.assignedNodes = [] →
        t'.status.state = TaskState.failed ∧
        t'.status.error = some "All assigned nodes failed") ∧
      (t'.status.assignedNodes ≠ [] →
        t'.status.state = task.status.state ∧ t'.status.error = task.status.error) := by
  have hmem : (tid, task) ∈ st.activeTasks := lookupA_mem _ _ _ h
  have hkey : tid ∈ st.activeTasks.map Prod.fst := List.mem_map_of_mem Prod.fst hmem
  obtain ⟨A, B, hAB⟩ := List.append_of_mem hkey
  rw [hAB] at hnd
  have hA : ∀ x ∈ A, x ≠ tid := by
    intro x hx hEq
    subst hEq
    exact (List.nodup_append.mp hnd).2.2 hx (List.mem_cons_self _ _)
  have hB : ∀ x ∈ B, x ≠ tid := by
    intro x hx hEq
    subst hEq
    exact (List.nodup_cons.mp (List.nodup_append.mp hnd).2.1).1 hx
  set sA := A.foldl (removeNodeStep p) st with hsAdef
  have hsA : lookupA sA.activeTasks tid = some task := by
    rw [hsAdef, foldl_removeNodeStep_lookup p A st tid hA]
    exact h
  obtain ⟨t', ht', h1, h2, h3, h4⟩ := handleNodeFailure_spec sA tid p task hsA
  have hstep : lookupA ((removeNodeStep p sA tid).activeTasks) tid = some t' := by
    unfold removeNodeStep
    rw [hsA]
    dsimp only
    rw [if_pos hp]
    exact ht'
  refine ⟨t', ?_, h1, h2, h3, h4⟩
  unfold removeNode
  rw [removePeerPools_activeTasks, hAB, List.foldl_append, List.foldl_cons, ← hsAdef,
    foldl_removeNodeStep_lookup p B (removeNodeStep p sA tid) tid hB]
  exact hstep

/-- A processing task whose only assignee is node `n1`, held in an engine
state with its timer armed and reward ledger open. -/
def demoRunTask : Task :=
  { demoTask with status := { demoTask.status with
      assignedNodes := ["n1"], acceptedNodes := ["n1"] } }

def demoRunningVS : VSState :=
  { vs0 with activeTasks := [("t1", demoRunTask)], taskTimeouts := ["t1"],
             rewardDistributions := [("t1", [])] }

theorem removeNode_task_effect_witness :
    (demoRunningVS.activeTasks.map Prod.fst).Nodup ∧
    lookupA demoRunningVS.activeTasks "t1" = some demoRunTask ∧
    "n1" ∈ demoRunTask.status.assignedNodes ∧
    (∃ t', lookupA (removeNode demoRunningVS "n1" NodeType.individual "r1").activeTasks "t1"
        = some t' ∧
      t'.status.assignedNodes =
        demoRunTask.status.assignedNodes.filter (fun i => decide (i ≠ "n1")) ∧
      t'.status.acceptedNodes =
        demoRunTask.status.acceptedNodes.filter (fun i => decide (i ≠ "n1")) ∧
      (t'.status.assignedNodes = [] →
        t'.status.state = TaskState.failed ∧
        t'.status.error = some "All assigned nodes failed") ∧
      (t'.status.assignedNodes ≠ [] →
        t'.status.state = demoRunTask.status.state ∧
        t'.status.error = demoRunTask.status.error)) :=
  ⟨by decide, by decide, by decide,
   removeNode_task_effect demoRunningVS NodeType.individual "r1" "n1" "t1" demoRunTask
     (by decide) (by decide) (by decide)⟩

/-! ## C9: containment of acceptedNodes in assignedNodes -/

/-- The per-task containment: every accepted node is an assigned node. -/
def taskOk (t : Task) : Prop :=
  ∀ x ∈ t.status.acceptedNodes, x ∈ t.status.assignedNodes

/-- The claimed invariant over the whole active task table. -/
def TaskInv (st : VSState) : Prop :=
  ∀ pr ∈ st.activeTasks, taskOk pr.2

theorem taskOk_insertA (l : List (String × Task)) (tid : String) (t : Task)
    (hl : ∀ pr ∈ l, taskOk pr.2) (ht : taskOk t) :
    ∀ pr ∈ insertA l tid t, taskOk pr.2 := by
  intro pr hpr
  rcases mem_insertA l tid t pr hpr with h | h
  · rw [h]
    exact ht
  · exact hl pr h

theorem taskOk_dropNode (task : Task) (p : String) (hok : taskOk task) :
    taskOk (dropNodeTask task p) := by
  intro x hx
  have hx' : x ∈ task.status.acceptedNodes.filter (fun i => decide (i ≠ p)) := hx
  rw [List.mem_filter] at hx'
  exact List.mem_filter.mpr ⟨hok x hx'.1, hx'.2⟩

theorem taskOk_failTask (task : Task) (p : String) (hok : taskOk task) :
    taskOk (failTask task p) :=
  taskOk_dropNode task p hok

theorem taskOk_acceptTask (now : ℚ) (task : Task) (p : String)
    (hok : taskOk task) (hpA : p ∈ task.status.assignedNodes) :
    taskOk (acceptTask now task p) := by
  unfold acceptTask
  dsimp only
  split
  · intro x hx
    have hx' : x ∈ task.status.acceptedNodes ++ [p] := hx
    show x ∈ task.status.assignedNodes
    rcases List.mem_append.mp hx' with h | h
    · exact hok x h
    · have hxp : x = p := by simpa using h
      rw [hxp]
      exact hpA
  · intro x hx
    have hx' : x ∈ task.status.acceptedNodes ++ [p] := hx
    show x ∈ task.status.assignedNodes
    rcases List.mem_append.mp hx' with h | h
    · exact hok x h
    · have hxp : x = p := by simpa using h
      rw [hxp]
      exact hpA

theorem taskOk_resetTask (now : ℚ) (task : Task) : taskOk (resetTask now task) := by
  intro x hx
  have hx' : x ∈ ([] : List String) := hx
  exact absurd hx' (List.not_mem_nil x)

theorem handleNodeFailure_taskInv (s : VSState) (tid p : String) (hInv : TaskInv s) :
    TaskInv (handleNodeFailure s tid p) := by
  unfold handleNodeFailure
  cases hl : lookupA s.activeTasks tid with
  | none => exact hInv
  | some task =>
    have hok : taskOk task := hInv _ (lookupA_mem _ _ _ hl)
    dsimp only
    split
    · intro pr hpr
      have hpr' : pr ∈ insertA s.activeTasks tid (failTask task p) := hpr
      exact taskOk_insertA s.activeTasks tid _ hInv (taskOk_failTask task p hok) pr hpr'
    · intro pr hpr
      have hpr' : pr ∈ insertA s.activeTasks tid (dropNodeTask task p) := hpr
      exact taskOk_insertA s.activeTasks tid _ hInv (taskOk_dropNode task p hok) pr hpr'

theorem removeNodeStep_taskInv (p : String) (s : VSState) (tid : String)
    (hInv : TaskInv s) : TaskInv (removeNodeStep p s tid) := by
  unfold removeNodeStep
  cases hl : lookupA s.activeTasks tid with
  | none => exact hInv
  | some t =>
    dsimp only
    split
    · exact handleNodeFailure_taskInv s tid p hInv
    · exact hInv

theorem foldl_removeNodeStep_taskInv (p : String) (L : List String) (s : VSState)
    (hInv : TaskInv s) : TaskInv (L.foldl (removeNodeStep p) s) := by
  induction L generalizing s with
  | nil => exact hInv
  | cons a t ih => exact ih _ (removeNodeStep_taskInv p s a hInv)

theorem taskOk_completedTask (now : ℚ) (task : Task) (hok : taskOk task) :
    taskOk (completedTask now task) :=
  hok

theorem finalizeTask_taskInv (now : ℚ) (st : VSState) (task : Task)
    (hInv : TaskInv st) (hok : taskOk task) : TaskInv (finalizeTask now st task) := by
  unfold finalizeTask
  dsimp only
  intro pr hpr
  have hpr' : pr ∈ insertA st.activeTasks task.taskId (completedTask now task) := hpr
  exact taskOk_insertA st.activeTasks task.taskId _ hInv (taskOk_completedTask now task hok)
    pr hpr'

instance decidableTaskOk (t : Task) : Decidable (taskOk t) := by
  unfold taskOk
  infer_instance

instance decidableTaskInv (st : VSState) : Decidable (TaskInv st) := by
  unfold TaskInv
  infer_instance

/-- C9 counterexample: the claim that task acceptance preserves the
containment fails — `handleTaskAcceptance` appends the accepting peer to
`acceptedNodes` without checking `assignedNodes`, so an acceptance from an
unassigned peer breaks the invariant. -/
theorem acceptance_breaks_containment :
    TaskInv demoPendingVS ∧
    ¬ TaskInv (handleTaskAcceptance 0 demoPendingVS "t1" "nX") := by
  constructor
  · decide
  · decide

/-- C9 (amended): regional distribution preserves the containment when the
incoming message task itself satisfies it; task acceptance preserves it when
the accepting peer is already among the task's `assignedNodes`; task
completion, node removal and retry preserve it unconditionally. -/
theorem containment_preservation :
    (∀ st task region, TaskInv st → taskOk task →
      TaskInv (handleRegionalTaskDistribution st task region)) ∧
    (∀ now st tid p, TaskInv st →
      (∀ pr ∈ st.activeTasks, pr.1 = tid → p ∈ pr.2.status.assignedNodes) →
      TaskInv (handleTaskAcceptance now st tid p)) ∧
    (∀ now st tid p, TaskInv st → TaskInv (handleTaskCompletion now st tid p)) ∧
    (∀ st p ty r, TaskInv st → TaskInv (removeNode st p ty r)) ∧
    (∀ cfg now st tid, TaskInv st → TaskInv (retryTask cfg now st tid).1) := by
  refine ⟨?_, ?_, ?_, ?_, ?_⟩
  · intro st task region hInv htask
    unfold handleRegionalTaskDistribution
    cases hn : lookupA st.individualNodes region with
    | none => exact hInv
    | some nodes =>
      dsimp only
      split
      · exact hInv
      · intro pr hpr
        refine taskOk_insertA st.activeTasks task.taskId _ hInv ?_ pr hpr
        intro x hx
        exact List.mem_append_left _ (htask x hx)
  · intro now st tid p hInv hassigned
    unfold handleTaskAcceptance
    cases hl : lookupA st.activeTasks tid with
    | none => exact hInv
    | some task =>
      have htaskmem : (tid, task) ∈ st.activeTasks := lookupA_mem _ _ _ hl
      have hpA : p ∈ task.status.assignedNodes := hassigned (tid, task) htaskmem rfl
      have hok : taskOk (acceptTask now task p) :=
        taskOk_acceptTask now task p (hInv _ htaskmem) hpA
      dsimp only
      split
      · intro pr hpr
        have hpr' : pr ∈ insertA st.activeTasks tid (acceptTask now task p) := hpr
        exact taskOk_insertA st.activeTasks tid _ hInv hok pr hpr'
      · intro pr hpr
        have hpr' : pr ∈ insertA st.activeTasks tid (acceptTask now task p) := hpr
        exact taskOk_insertA st.activeTasks tid _ hInv hok pr hpr'
  · intro now st tid p hInv
    unfold handleTaskCompletion
    cases hl : lookupA st.activeTasks tid with
    | none => exact hInv
    | some task =>
      dsimp only
      cases hr : lookupA st.rewardDistributions tid with
      | none => exact hInv
      | some rws =>
        have hok : taskOk task := hInv _ (lookupA_mem _ _ _ hl)
        dsimp only
        split
        · exact finalizeTask_taskInv now _ task hInv hok
        · exact hInv
  · intro st p ty r hInv
    intro pr hpr
    unfold removeNode at hpr
    rw [removePeerPools_activeTasks] at hpr
    exact foldl_removeNodeStep_taskInv p _ st hInv pr hpr
  · intro cfg now st tid hInv
    unfold retryTask
    cases hl : lookupA st.activeTasks tid with
    | none => exact hInv
    | some task =>
      dsimp only
      split
      · exact hInv
      · have hok' : taskOk (resetTask now task) := taskOk_resetTask now task
        have h1 : TaskInv
            { st with activeTasks := insertA st.activeTasks tid (resetTask now task) } := by
          intro pr hpr
          have hpr' : pr ∈ insertA st.activeTasks tid (resetTask now task) := hpr
          exact taskOk_insertA st.activeTasks tid _ hInv hok' pr hpr'
        unfold broadcastTask
        split
        · intro pr hpr
          have hpr' : pr ∈ insertA (insertA st.activeTasks tid (resetTask now task))
              (resetTask now task).taskId (resetTask now task) := hpr
          exact taskOk_insertA _ _ _ h1 hok' pr hpr'
        · exact h1

theorem containment_preservation_witness :
    TaskInv demoRunningVS ∧
    (∀ pr ∈ demoRunningVS.activeTasks, pr.1 = "t1" → "n1" ∈ pr.2.status.assignedNodes) ∧
    TaskInv (handleTaskAcceptance 0 demoRunningVS "t1" "n1") :=
  ⟨by decide, by decide,
   containment_preservation.2.1 0 demoRunningVS "t1" "n1" (by decide) (by decide)⟩

/-! ## C10: validator share overwrites the completion reward -/

theorem lookupA_foldl_insertA_const (L : List String) (s : ℚ) (p : String) :
    ∀ m : List (String × ℚ), p ∉ L →
      lookupA (L.foldl (fun acc v => insertA acc v s) m) p = lookupA m p := by
  induction L with
  | nil => intro m _; rfl
  | cons a t ih =>
    intro m h
    simp only [List.foldl_cons]
    have hat : p ∉ t := fun hmem => h (List.mem_cons_of_mem a hmem)
    have hap : a ≠ p := fun hEq => h (by rw [hEq]; exact List.mem_cons_self _ _)
    rw [ih _ hat]
    exact lookupA_insertA_ne m a p s hap

theorem lookupA_foldl_insertA_mem (L : List String) (s : ℚ) (p : String) :
    ∀ m : List (String × ℚ), p ∈ L →
      lookupA (L.foldl (fun acc v => insertA acc v s) m) p = some s := by
  induction L with
  | nil => intro m h; cases h
  | cons a t ih =>
    intro m h
    simp only [List.foldl_cons]
    by_cases hpt : p ∈ t
    · exact ih _ hpt
    · have hap : a = p := by
        rcases List.mem_cons.mp h with h1 | h1
        · exact h1.symm
        · exact absurd h1 hpt
      rw [lookupA_foldl_insertA_const t s p _ hpt, hap]
      exact lookupA_insertA_self m p s

/-- A global validator peer that also worked the task itself. -/
def demoGlobalPeer : PeerRec :=
  { peerId := "p1", nodeType := NodeType.global_node, nodeTier := NodeTier.training,
    region := "r1", tokenBalance := 5000, online := true, storage := 0, memory := 0,
    activeTasks := 0, completedTasks := 0 }

/-- A task submitted by "p1" that "p1" itself was assigned, accepted and
completes: "p1" is both an accepted node and the submitting validator. -/
def demoDualTask : Task :=
  { demoTask with
    submitter := "p1",
    reward := { total := 100, perNode := 90, validatorShare := 10, penaltyRate := 0 },
    status := { demoTask.status with
      assignedNodes := ["p1"], acceptedNodes := ["p1"], startTime := some 0 } }

def demoDualVS : VSState :=
  { vs0 with globalValidators := [("p1", demoGlobalPeer)],
             activeTasks := [("t1", demoDualTask)],
             taskTimeouts := ["t1"],
             rewardDistributions := [("t1", [])] }

/-- C10 counterexample: in a completed-and-finalized run where peer "p1" is
both the only accepted node and the only task validator, the reward map is
overwritten to the validator share (the reward-distribution message carries
10, not the completion reward 90 and not 100), but `finalizeTask` ends with
`cleanupTask`, which deletes the task's reward ledger, so `getPendingRewards`
afterwards holds no entry at all for "p1" — not the validator share the
claim asserts. -/
theorem finalize_clears_pending_rewards :
    "p1" ∈ getTaskValidators demoDualVS demoDualTask ∧
    "p1" ∈ demoDualTask.status.acceptedNodes ∧
    VSMsg.rewardDistribution "t1" "p1" 10
      ∈ (handleTaskCompletion 50 demoDualVS "t1" "p1").sent ∧
    lookupA (getPendingRewards (handleTaskCompletion 50 demoDualVS "t1" "p1")) "p1"
      = none := by
  refine ⟨by decide, by decide, ?_, by decide⟩
  have hsent : (handleTaskCompletion 50 demoDualVS "t1" "p1").sent
      = [VSMsg.rewardDistribution "t1" "p1"
          (validatorRewardOf demoDualTask /
            ((getTaskValidators demoDualVS demoDualTask).length : ℚ))] := by rfl
  have hlen : getTaskValidators demoDualVS demoDualTask = ["p1"] := by decide
  have hterm : validatorRewardOf demoDualTask /
      ((getTaskValidators demoDualVS demoDualTask).length : ℚ) = 10 := by
    rw [hlen]
    norm_num [validatorRewardOf, demoDualTask, demoTask]
  rw [hsent, hterm]
  exact List.mem_singleton_self _

/-- C10 (amended): during finalization, validator shares are written into the
same per-task reward map that holds the node completion rewards using an
overwriting update: a peer that both completed the task as an accepted node
and is counted among its validators is recorded with only the evenly-split
validator share — replaced, not added — and the reward-distribution message
sent to that peer carries only that share. However `finalizeTask` then runs
`cleanupTask`, which deletes the task's reward ledger, so `getPendingRewards`
after finalization reflects no amount for the task (not the validator
share). -/
theorem finalize_validator_overwrite (now : ℚ) (st : VSState) (task : Task) (p : String)
    (hv : p ∈ getTaskValidators st task)
    (hconn : (findPeer st p).isSome = true) :
    lookupA (finalizeRewardMap st task) p
      = some (validatorRewardOf task / ((getTaskValidators st task).length : ℚ)) ∧
    VSMsg.rewardDistribution task.taskId p
        (validatorRewardOf task / ((getTaskValidators st task).length : ℚ))
      ∈ (finalizeTask now st task).sent ∧
    lookupA (finalizeTask now st task).rewardDistributions task.taskId = none := by
  have h1 : lookupA (finalizeRewardMap st task) p
      = some (validatorRewardOf task / ((getTaskValidators st task).length : ℚ)) := by
    unfold finalizeRewardMap
    exact lookupA_foldl_insertA_mem (getTaskValidators st task) _ p _ hv
  refine ⟨h1, ?_, ?_⟩
  · have hmem := lookupA_mem _ _ _ h1
    have hsent : (finalizeTask now st task).sent
        = st.sent ++ (finalizeRewardMap st task).filterMap (fun pr =>
            if (findPeer st pr.1).isSome then
              some (VSMsg.rewardDistribution task.taskId pr.1 pr.2)
            else none) := rfl
    rw [hsent]
    apply List.mem_append_right
    apply List.mem_filterMap.mpr
    refine ⟨(p, validatorRewardOf task / ((getTaskValidators st task).length : ℚ)),
      hmem, ?_⟩
    simp [hconn]
  · have hled : (finalizeTask now st task).rewardDistributions
        = eraseA (insertA st.rewardDistributions task.taskId (finalizeRewardMap st task))
            task.taskId := rfl
    rw [hled]
    exact lookupA_eraseA_self _ _

theorem finalize_validator_overwrite_witness :
    "p1" ∈ getTaskValidators demoDualVS demoDualTask ∧
    (findPeer demoDualVS "p1").isSome = true ∧
    (lookupA (finalizeRewardMap demoDualVS demoDualTask) "p1"
        = some (validatorRewardOf demoDualTask /
            ((getTaskValidators demoDualVS demoDualTask).length : ℚ)) ∧
     VSMsg.rewardDistribution demoDualTask.taskId "p1"
         (validatorRewardOf demoDualTask /
           ((getTaskValidators demoDualVS demoDualTask).length : ℚ))
       ∈ (finalizeTask 50 demoDualVS demoDualTask).sent ∧
     lookupA (finalizeTask 50 demoDualVS demoDualTask).rewardDistributions
         demoDualTask.taskId = none) :=
  ⟨by decide, by decide,
   finalize_validator_overwrite 50 demoDualVS demoDualTask "p1" (by decide) (by decide)⟩

/-! ## GlobalNodeCoordinator (src/GlobalNodeCoordinator.ts)

Health-check round-trip outcomes (ping success, measured latency, and the
completion/resource figures `getNodeTaskMetrics` reads from peer status) are
parameters of the health-check cycle; broadcasts record the message in a sent
log (the recipients filter is transport). -/

inductive GStatus where
  | active
  | degraded
  | failing
  | offline
deriving DecidableEq

structure GMetrics where
  responsiveness : ℚ
  taskCompletion : ℚ
  networkLatency : ℚ
  resourceUtilization : ℚ
deriving DecidableEq

structure GHealth where
  nodeId : String
  status : GStatus
  metrics : GMetrics
  issues : List String
deriving DecidableEq

structure FailoverRecord where
  failedNodeId : String
  backupNodeId : String
  affectedTasks : List String
  reason : String
deriving DecidableEq

/-- Messages broadcast by the coordinator: the health update of the check
cycle, the `global_node_health` notice sent by `handleDegradedNode`, the
`task_reassignment` message of `reassignTask`, and the
`global_node_failover` broadcast. -/
inductive CoordMsg where
  | healthUpdate (h : GHealth)
  | degradedNotice (nodeId : String)
  | reassignment (previousNode : Option String) (task : Task)
  | failoverEvent (f : FailoverRecord)
deriving DecidableEq

structure CoordState where
  globalNodes : List String
  healthMetrics : List (String × GHealth)
  failoverHistory : List FailoverRecord
  activeTasks : List (String × Task)
  sent : List CoordMsg
deriving DecidableEq

/-- `determineNodeStatus` (GlobalNodeCoordinator.ts lines 175-182). -/
def determineNodeStatus (m : GMetrics) : GStatus :=
  if m.responsiveness < 50 ∨ m.taskCompletion < 50 then GStatus.failing
  else if m.responsiveness < 80 ∨ m.taskCompletion < 80 then GStatus.degraded
  else GStatus.active

/-- The default health record used when a node has none yet (lines 120-131,
also `initializeHealthMetrics`). -/
def defaultHealth (nodeId : String) : GHealth :=
  { nodeId := nodeId, status := GStatus.active,
    metrics := { responsiveness := 100, taskCompletion := 100,
                 networkLatency := 0, resourceUtilization := 0 },
    issues := [] }

/-- `assessNodeHealth` (lines 119-154): ping success resets responsiveness to
100 and records latency; failure decrements responsiveness by 20 (floored at
0) and appends an issue; completion rate and resource usage are read from the
peer's status; the composite status is recomputed. -/
def assessNodeHealth (pingOk : Bool) (latency completionRate resourceUsage : ℚ)
    (prev : Option GHealth) (nodeId : String) : GHealth :=
  let h0 := prev.getD (defaultHealth nodeId)
  let responsiveness' := if pingOk then 100 else max 0 (h0.metrics.responsiveness - 20)
  let networkLatency' := if pingOk then latency else h0.metrics.networkLatency
  let issues' := if pingOk then h0.issues else h0.issues ++ ["Node not responding to ping"]
  let metrics' : GMetrics :=
    { responsiveness := responsiveness', taskCompletion := completionRate,
      networkLatency := networkLatency', resourceUtilization := resourceUsage }
  { nodeId := h0.nodeId, status := determineNodeStatus metrics', metrics := metrics',
    issues := issues' }

/-- `checkGlobalNodesHealth` (lines 101-117): refresh every tracked global
node's health; a `failing` status triggers `handleDegradedNode` — which only
broadcasts a `global_node_health` notice — and every cycle broadcasts the
health update. No failover is initiated here. -/
def checkGlobalNodesHealth (pingOk : String → Bool)
    (latency completionRate resourceUsage : String → ℚ) (st : CoordState) : CoordState :=
  st.globalNodes.foldl (fun s nid =>
    let h := assessNodeHealth (pingOk nid) (latency nid) (completionRate nid)
      (resourceUsage nid) (lookupA s.healthMetrics nid) nid
    let s1 := { s with healthMetrics := insertA s.healthMetrics nid h }
    let s2 := if h.status = GStatus.failing
      then { s1 with sent := s1.sent ++ [CoordMsg.degradedNotice nid] } else s1
    { s2 with sent := s2.sent ++ [CoordMsg.healthUpdate h] }) st

/-- The health mutation of `removeGlobalNode` (lines 70-76): mark the node
offline and append the disconnect issue. -/
def markOffline (st : CoordState) (nid : String) : CoordState :=
  match lookupA st.healthMetrics nid with
  | none => st
  | some h =>
    let h' := { h with
      status := GStatus.offline,
      issues := h.issues ++ ["Node disconnected from network"] }
    { st with healthMetrics := insertA st.healthMetrics nid h' }

/-- The backup candidates of `handleNodeFailover` (lines 189-193): every
other tracked global node whose recorded status is `active`. -/
def availableBackups (st : CoordState) (nid : String) : List String :=
  st.globalNodes.filter (fun id =>
    decide (id ≠ nid) &&
    decide ((lookupA st.healthMetrics id).map GHealth.status = some GStatus.active))

/-- `getNodeTasks` (lines 343-347): tasks attributed to the failed node. -/
def affectedTasksOf (st : CoordState) (nid : String) : List Task :=
  (st.activeTasks.map Prod.snd).filter (fun t => decide (t.globalValidator = some nid))

/-- The task copy sent by `reassignTask` (lines 278-299): new
`globalValidator` is the backup, `backupValidators` are all other tracked
global nodes (not filtered by health). -/
def reassignedTask (st : CoordState) (backup : String) (t : Task) : Task :=
  { t with globalValidator := some backup,
           backupValidators := some (st.globalNodes.filter (fun id => decide (id ≠ backup))) }

def failoverReason : String := "Node health degraded below acceptable threshold"

/-- The failover record built by `handleNodeFailover` (lines 203-209). -/
def failoverRecordOf (st : CoordState) (nid backup : String) : FailoverRecord :=
  { failedNodeId := nid, backupNodeId := backup,
    affectedTasks := (affectedTasksOf st nid).map Task.taskId,
    reason := failoverReason }

/-- The `task_reassignment` messages sent during a failover (lines 212-214). -/
def reassignmentMsgs (st : CoordState) (nid backup : String) : List CoordMsg :=
  (affectedTasksOf st nid).map (fun t =>
    CoordMsg.reassignment t.globalValidator (reassignedTask st backup t))

/-- `handleNodeFailover` (lines 184-218): picks the first available backup
(logs and aborts when none), reassigns the failed node's tasks, appends one
failover record and broadcasts it. -/
def handleNodeFailover (st : CoordState) (nid : String) : CoordState :=
  if nid ∈ st.globalNodes then
    match availableBackups st nid with
    | [] => st
    | backup :: _ =>
      let fo := failoverRecordOf st nid backup
      { st with failoverHistory := st.failoverHistory ++ [fo],
                sent := st.sent ++ reassignmentMsgs st nid backup ++
                  [CoordMsg.failoverEvent fo] }
  else st

/-- `removeGlobalNode` (lines 66-83): mark offline, run the failover, then
drop the node from the coordinator tables. -/
def removeGlobalNode (st : CoordState) (nid : String) : CoordState :=
  if nid ∈ st.globalNodes then
    let st1 := markOffline st nid
    let st2 := handleNodeFailover st1 nid
    { st2 with globalNodes := st2.globalNodes.filter (fun id => decide (id ≠ nid)),
               healthMetrics := eraseA st2.healthMetrics nid }
  else st

theorem markOffline_fields (st : CoordState) (nid : String) :
    (markOffline st nid).failoverHistory = st.failoverHistory ∧
    (markOffline st nid).sent = st.sent ∧
    (markOffline st nid).globalNodes = st.globalNodes ∧
    (markOffline st nid).activeTasks = st.activeTasks := by
  unfold markOffline
  cases lookupA st.healthMetrics nid <;> exact ⟨rfl, rfl, rfl, rfl⟩

/-- A second global validator and a task attributed to validator "A", used to
instantiate the coordinator claims. -/
def demoTaskA : Task := { demoTask with globalValidator := some "A" }

def demoCoord : CoordState :=
  { globalNodes := ["A", "B"],
    healthMetrics := [("A", defaultHealth "A"), ("B", defaultHealth "B")],
    failoverHistory := [],
    activeTasks := [("t1", demoTaskA)],
    sent := [] }

def demoPing : String → Bool := fun _ => true

def demoLatency : String → ℚ := fun _ => 0

def demoCompletionRate : String → ℚ := fun n => if n = "A" then 40 else 100

def demoResource : String → ℚ := fun _ => 0

/-- C3 counterexample: validator "A"'s composite status becomes `failing`
during a health-check cycle (task completion 40 < 50) while a task is
attributed to it, yet no failover is performed: the failover history stays
empty and the only traffic is the degraded-node notice and the health
updates — no task is reassigned. -/
theorem failing_health_no_failover :
    ((lookupA (checkGlobalNodesHealth demoPing demoLatency demoCompletionRate demoResource
        demoCoord).healthMetrics "A").map GHealth.status = some GStatus.failing) ∧
    (checkGlobalNodesHealth demoPing demoLatency demoCompletionRate demoResource
        demoCoord).failoverHistory = [] ∧
    (checkGlobalNodesHealth demoPing demoLatency demoCompletionRate demoResource
        demoCoord).sent =
      [CoordMsg.degradedNotice "A",
       CoordMsg.healthUpdate ⟨"A", GStatus.failing, ⟨100, 40, 0, 0⟩, []⟩,
       CoordMsg.healthUpdate ⟨"B", GStatus.active, ⟨100, 100, 0, 0⟩, []⟩] := by
  refine ⟨by decide, by decide, by decide⟩

/-- C3 (amended): a `failing` composite health status does not trigger a
failover — the health-check cycle never appends a failover record (it only
broadcasts a degraded-node notice and health updates). A failover is
performed only when a tracked global node disconnects (`removeGlobalNode`):
the first other global validator whose recorded status is `active` is chosen
as backup (with only a log and abort when none exists), every task whose
`globalValidator` is the failed node is reassigned to the backup with
`backupValidators` set to all other tracked global nodes (not filtered by
health), and exactly one failover record is appended per failover. -/
theorem failover_on_disconnect_only :
    (∀ pingOk latency completionRate resourceUsage st,
      (checkGlobalNodesHealth pingOk latency completionRate resourceUsage st).failoverHistory
        = st.failoverHistory) ∧
    (∀ st nid backup rest,
      nid ∈ st.globalNodes →
      availableBackups (markOffline st nid) nid = backup :: rest →
      (removeGlobalNode st nid).failoverHistory
        = st.failoverHistory ++ [failoverRecordOf (markOffline st nid) nid backup] ∧
      (removeGlobalNode st nid).sent
        = st.sent ++ reassignmentMsgs (markOffline st nid) nid backup ++
          [CoordMsg.failoverEvent (failoverRecordOf (markOffline st nid) nid backup)]) ∧
    (∀ st nid, nid ∈ st.globalNodes →
      availableBackups (markOffline st nid) nid = [] →
      (removeGlobalNode st nid).failoverHistory = st.failoverHistory) := by
  refine ⟨?_, ?_, ?_⟩
  · intro pingOk latency completionRate resourceUsage st
    unfold checkGlobalNodesHealth
    generalize st.globalNodes = L
    induction L generalizing st with
    | nil => rfl
    | cons a t ih =>
      rw [List.foldl_cons, ih]
      dsimp only
      split <;> rfl
  · intro st nid backup rest hmem hav
    have hmem1 : nid ∈ (markOffline st nid).globalNodes := by
      rw [(markOffline_fields st nid).2.2.1]
      exact hmem
    unfold removeGlobalNode
    rw [if_pos hmem]
    dsimp only
    unfold handleNodeFailover
    rw [if_pos hmem1, hav]
    dsimp only
    constructor
    · show (markOffline st nid).failoverHistory ++ _ = _
      rw [(markOffline_fields st nid).1]
    · show (markOffline st nid).sent ++ _ ++ _ = _
      rw [(markOffline_fields st nid).2.1]
  · intro st nid hmem hav
    have hmem1 : nid ∈ (markOffline st nid).globalNodes := by
      rw [(markOffline_fields st nid).2.2.1]
      exact hmem
    unfold removeGlobalNode
    rw [if_pos hmem]
    dsimp only
    unfold handleNodeFailover
    rw [if_pos hmem1, hav]
    exact (markOffline_fields st nid).1

theorem failover_on_disconnect_only_witness :
    "A" ∈ demoCoord.globalNodes ∧
    availableBackups (markOffline demoCoord "A") "A" = "B" :: [] ∧
    ((removeGlobalNode demoCoord "A").failoverHistory
        = demoCoord.failoverHistory ++
          [failoverRecordOf (markOffline demoCoord "A") "A" "B"] ∧
     (removeGlobalNode demoCoord "A").sent
        = demoCoord.sent ++ reassignmentMsgs (markOffline demoCoord "A") "A" "B" ++
          [CoordMsg.failoverEvent (failoverRecordOf (markOffline demoCoord "A") "A" "B")]) :=
  ⟨by decide, by decide,
   failover_on_disconnect_only.2.1 demoCoord "A" "B" [] (by decide) (by decide)⟩

/-! ## SignalingServer (src/signalingServer.ts) -/

structure ValidatorConfig where
  regionalTokenRequirement : ℚ
  globalTokenRequirement : ℚ
deriving DecidableEq

/-- Defaults from src/config.ts (`validator` section). -/
def defaultValidatorConfig : ValidatorConfig := ⟨1000, 5000⟩

/-- A region record: member peer ids and validator ids (JS `Set`s, modelled
as deduplicated lists; the rolling metrics are read-only aggregates). -/
structure RegionRec where
  peers : List String
  validators : List String
deriving DecidableEq

/-- Responses and broadcasts produced by the join path. `networkState`'s
payload is a read-only snapshot of the state and is not modelled field by
field. -/
inductive SSMsg where
  | error (message : String)
  | networkState
  | peerJoined (peerId : String)
deriving DecidableEq

structure SSState where
  peers : List (String × PeerRec)
  regions : List (String × RegionRec)
  vs : VSState
  outbox : List SSMsg
deriving DecidableEq

structure JoinMsg where
  peerId : Option String
  nodeType : Option NodeType
  nodeTier : Option NodeTier
  tokenBalance : Option ℚ
  region : Option String
deriving DecidableEq

/-- `validateValidatorEligibility` (signalingServer.ts lines 126-146). -/
def validateValidatorEligibility (cfg : ValidatorConfig) (nodeTier : NodeTier)
    (validatorType : NodeType) (tokenBalance : ℚ) : Bool :=
  match validatorType with
  | .regional_node =>
    decide (nodeTier = NodeTier.aggregator ∨ nodeTier = NodeTier.training) &&
    decide (cfg.regionalTokenRequirement ≤ tokenBalance)
  | .global_node =>
    decide (nodeTier = NodeTier.training ∨ nodeTier = NodeTier.feedback) &&
    decide (cfg.globalTokenRequirement ≤ tokenBalance)
  | .individual => false

/-- `updateRegionInfo` (lines 397-431), without the metrics refresh (the
metrics collector is a passive recorder). -/
def updateRegionInfo (st : SSState) (region peerId : String) (nodeType : NodeType) :
    SSState :=
  let regions0 := if lookupA st.regions region = none
    then insertA st.regions region ⟨[], []⟩ else st.regions
  let r := (lookupA regions0 region).getD ⟨[], []⟩
  let r1 := { r with peers := if peerId ∈ r.peers then r.peers else r.peers ++ [peerId] }
  let r2 := if nodeType ≠ NodeType.individual then
      { r1 with validators := if peerId ∈ r1.validators then r1.validators
                              else r1.validators ++ [peerId] }
    else r1
  { st with regions := insertA regions0 region r2 }

/-- The peer record built by `handleJoin` (lines 165-199): fresh status with
zeroed gauges and counters. -/
def joinPeerRec (peerId : String) (nodeType : NodeType) (nodeTier : NodeTier)
    (tokenBalance : ℚ) (region : String) : PeerRec :=
  { peerId := peerId, nodeType := nodeType, nodeTier := nodeTier, region := region,
    tokenBalance := tokenBalance, online := true, storage := 0, memory := 0,
    activeTasks := 0, completedTasks := 0 }

/-- `handleJoin` (lines 148-224). The JS guard `!peerId || !nodeType || ...`
also rejects empty strings (falsy); `tokenBalance` defaults to 0. On an
ineligible non-individual join the handler answers with an error and returns
before any registration. -/
def handleJoin (cfg : ValidatorConfig) (st : SSState) (m : JoinMsg) : SSState :=
  match m.peerId, m.nodeType, m.nodeTier, m.region with
  | some peerId, some nodeType, some nodeTier, some region =>
    if peerId = "" ∨ region = "" then
      { st with outbox := st.outbox ++ [SSMsg.error "Invalid join message format"] }
    else
      let tokenBalance := m.tokenBalance.getD 0
      if nodeType ≠ NodeType.individual ∧
          validateValidatorEligibility cfg nodeTier nodeType tokenBalance = false then
        { st with outbox := st.outbox ++
            [SSMsg.error "Insufficient tier or tokens for validator role"] }
      else
        let peer := joinPeerRec peerId nodeType nodeTier tokenBalance region
        let st1 := { st with peers := insertA st.peers peerId peer,
                             vs := addNode st.vs peer }
        let st2 := updateRegionInfo st1 region peerId nodeType
        { st2 with outbox := st2.outbox ++ [SSMsg.networkState, SSMsg.peerJoined peerId] }
  | _, _, _, _ =>
    { st with outbox := st.outbox ++ [SSMsg.error "Invalid join message format"] }

/-- C6: a join from a `regional_node` whose tier is not in
{aggregator, training} or whose balance is below the regional token
requirement — and likewise a join from a `global_node` whose tier is not in
{training, feedback} or whose balance is below the global requirement — is
answered with an error response, and the peer is registered nowhere: the
peer registry, the region records and every validator-system pool are left
exactly as they were. -/
theorem handleJoin_rejects_ineligible (cfg : ValidatorConfig) (st : SSState)
    (m : JoinMsg) (peerId : String) (nodeType : NodeType) (nodeTier : NodeTier)
    (tokenBalance : ℚ) (region : String)
    (hm : m = ⟨some peerId, some nodeType, some nodeTier, some tokenBalance, some region⟩)
    (hpid : peerId ≠ "") (hrg : region ≠ "")
    (h : (nodeType = NodeType.regional_node ∧
            (¬ (nodeTier = NodeTier.aggregator ∨ nodeTier = NodeTier.training) ∨
             tokenBalance < cfg.regionalTokenRequirement)) ∨
         (nodeType = NodeType.global_node ∧
            (¬ (nodeTier = NodeTier.training ∨ nodeTier = NodeTier.feedback) ∨
             tokenBalance < cfg.globalTokenRequirement))) :
    handleJoin cfg st m =
      { st with outbox := st.outbox ++
          [SSMsg.error "Insufficient tier or tokens for validator role"] } ∧
    (handleJoin cfg st m).peers = st.peers ∧
    (handleJoin cfg st m).regions = st.regions ∧
    (handleJoin cfg st m).vs = st.vs := by
  subst hm
  have hne : nodeType ≠ NodeType.individual := by
    rcases h with ⟨h1, _⟩ | ⟨h1, _⟩ <;> (rw [h1]; intro hc; cases hc)
  have hval : validateValidatorEligibility cfg nodeTier nodeType tokenBalance = false := by
    rcases h with ⟨h1, h2⟩ | ⟨h1, h2⟩
    · rw [h1]
      unfold validateValidatorEligibility
      rcases h2 with h2 | h2
      · simp [h2]
      · simp [not_le.mpr h2]
    · rw [h1]
      unfold validateValidatorEligibility
      rcases h2 with h2 | h2
      · simp [h2]
      · simp [not_le.mpr h2]
  have heq : handleJoin cfg st
      ⟨some peerId, some nodeType, some nodeTier, some tokenBalance, some region⟩ =
      { st with outbox := st.outbox ++
          [SSMsg.error "Insufficient tier or tokens for validator role"] } := by
    unfold handleJoin
    dsimp only
    rw [if_neg (by push_neg; exact ⟨hpid, hrg⟩), if_pos ⟨hne, hval⟩]
  exact ⟨heq, by rw [heq], by rw [heq], by rw [heq]⟩

/-- The spec scenario: a `regional_node` joining with balance 500, below the
default 1000 regional token requirement. -/
def demoJoinMsg : JoinMsg :=
  ⟨some "r9", some NodeType.regional_node, some NodeTier.aggregator, some 500, some "r1"⟩

def demoSS : SSState := ⟨[], [], vs0, []⟩

theorem handleJoin_rejects_ineligible_witness :
    demoJoinMsg = ⟨some "r9", some NodeType.regional_node, some NodeTier.aggregator,
      some 500, some "r1"⟩ ∧
    ("r9" : String) ≠ "" ∧
    ("r1" : String) ≠ "" ∧
    ((NodeType.regional_node = NodeType.regional_node ∧
        (¬ (NodeTier.aggregator = NodeTier.aggregator ∨
            NodeTier.aggregator = NodeTier.training) ∨
         (500 : ℚ) < defaultValidatorConfig.regionalTokenRequirement)) ∨
     (NodeType.regional_node = NodeType.global_node ∧
        (¬ (NodeTier.aggregator = NodeTier.training ∨
            NodeTier.aggregator = NodeTier.feedback) ∨
         (500 : ℚ) < defaultValidatorConfig.globalTokenRequirement))) ∧
    (handleJoin defaultValidatorConfig demoSS demoJoinMsg =
      { demoSS with outbox := demoSS.outbox ++
          [SSMsg.error "Insufficient tier or tokens for validator role"] } ∧
     (handleJoin defaultValidatorConfig demoSS demoJoinMsg).peers = demoSS.peers ∧
     (handleJoin defaultValidatorConfig demoSS demoJoinMsg).regions = demoSS.regions ∧
     (handleJoin defaultValidatorConfig demoSS demoJoinMsg).vs = demoSS.vs) :=
  ⟨rfl, by decide, by decide, Or.inl ⟨rfl, Or.inr (by decide)⟩,
   handleJoin_rejects_ineligible defaultValidatorConfig demoSS demoJoinMsg
     "r9" NodeType.regional_node NodeTier.aggregator 500 "r1" rfl (by decide) (by decide)
     (Or.inl ⟨rfl, Or.inr (by decide)⟩)⟩

/-! ## DHTNetwork (network/DHTNetwork.ts) -/

structure DHTNodeR where
  id : String
  address : String
deriving DecidableEq

structure DHTState (α : Type) where
  connected : Bool
  data : List (String × α)
  nodes : List DHTNodeR

/-- `store` (DHTNetwork.ts lines 199-230): requires connection, writes
locally, then replicates to the first `replicationFactor` known
routing-table nodes. Each replica delivery (outcome given by `deliver`) is
best-effort: failures are only logged and the call still resolves. Returns
the new state together with the attempted deliveries and their outcomes. -/
def DHTNetwork.store {α : Type} (replicationFactor : ℕ) (deliver : String → Bool)
    (st : DHTState α) (key : String) (value : α) :
    Except String (DHTState α × List (String × Bool)) :=
  if st.connected = false then Except.error "Not connected to DHT network"
  else
    let st' := { st with data := insertA st.data key value }
    let targets := st.nodes.take replicationFactor
    Except.ok (st', targets.map (fun n => (n.id, deliver n.id)))

/-- The sequential peer query of `findValue` (lines 183-195): the first node
whose answer (or `none` on failure) carries a value wins. -/
def DHTNetwork.firstHit {α : Type} (nodes : List DHTNodeR) (query : String → Option α) :
    Option α :=
  match nodes with
  | [] => none
  | n :: t =>
    match query n.id with
    | some v => some v
    | none => DHTNetwork.firstHit t query

/-- `findValue` (lines 166-197): requires connection; returns the locally
cached value when present; otherwise queries every known node in order,
caching and returning the first hit, or `none`. -/
def DHTNetwork.findValue {α : Type} (query : String → Option α) (st : DHTState α)
    (key : String) : Except String (DHTState α × Option α) :=
  if st.connected = false then Except.error "Not connected to DHT network"
  else
    match lookupA st.data key with
    | some v => Except.ok (st, some v)
    | none =>
      match DHTNetwork.firstHit st.nodes query with
      | some v => Except.ok ({ st with data := insertA st.data key v }, some v)
      | none => Except.ok (st, none)

/-- C8: after `store key value` succeeds while connected, `findValue key`
returns that value from the local store even when zero replicas were
reachable; the store attempts replication to exactly the first
`replicationFactor` known routing-table nodes and still resolves
successfully whatever subset of those deliveries (including all of them)
fails. -/
theorem store_findValue_roundtrip {α : Type} (R : ℕ) (deliver : String → Bool)
    (st : DHTState α) (key : String) (value : α) (h : st.connected = true) :
    DHTNetwork.store R deliver st key value
      = Except.ok ({ st with data := insertA st.data key value },
          (st.nodes.take R).map (fun n => (n.id, deliver n.id))) ∧
    ∀ query : String → Option α,
      DHTNetwork.findValue query { st with data := insertA st.data key value } key
        = Except.ok ({ st with data := insertA st.data key value }, some value) := by
  constructor
  · simp [DHTNetwork.store, h]
  · intro query
    simp [DHTNetwork.findValue, h, lookupA_insertA_self]

def demoDHT : DHTState ℕ :=
  { connected := true,
    data := [],
    nodes := [⟨"n1", "a1"⟩, ⟨"n2", "a2"⟩, ⟨"n3", "a3"⟩, ⟨"n4", "a4"⟩] }

theorem store_findValue_roundtrip_witness :
    demoDHT.connected = true ∧
    (DHTNetwork.store 3 (fun _ => false) demoDHT "k" 7
        = Except.ok ({ demoDHT with data := insertA demoDHT.data "k" 7 },
            (demoDHT.nodes.take 3).map (fun n => (n.id, (fun _ => false) n.id))) ∧
     ∀ query : String → Option ℕ,
       DHTNetwork.findValue query { demoDHT with data := insertA demoDHT.data "k" 7 } "k"
         = Except.ok ({ demoDHT with data := insertA demoDHT.data "k" 7 }, some 7)) :=
  ⟨rfl, store_findValue_roundtrip 3 (fun _ => false) demoDHT "k" 7 rfl⟩

end Tenzro
